import Mathlib

/-!
Verification development for `yt/fields/magnetic_field.py`.

The Python module defines derived magnetic-field quantities (strength, energy,
pressure, plasma beta, poloidal/toroidal decompositions, Alfven speed, aliases
for dataset-native magnetic fields, and a finite-difference current density).
We embed the module shallowly:

* physical dimensions (sympy dimension expressions in `yt.units.dimensions`)
  become exponent vectors over ℚ (`Dims`);
* unit-tagged numpy arrays become `YTArr` (a shape plus a total value function
  `ℕ → ℕ → ℕ → ℝ` and one `Dims` tag for the whole array, as in `yt`);
* scalar quantities (`mu_0`, `c`, grid spacings) become `Quantity`;
* the field registry (`FieldInfoContainer`, which lives outside the sources
  at hand) is modelled from the spec as an association list of descriptors,
  newest entry first, so that re-registration overwrites.
-/

/-- Physical dimension as an exponent vector over the five base dimensions
used by `yt.units.dimensions` (`mass`, `length`, `time`, `temperature`,
`current_mks`).  Exponents are rational, matching sympy's rational powers
(e.g. `sqrt(mass/length)/time` for the Gaussian magnetic field). -/
structure Dims where
  mass : ℚ
  length : ℚ
  time : ℚ
  temperature : ℚ
  current : ℚ
deriving DecidableEq, Repr

/-- Product of dimension expressions: exponents add. -/
def Dims.mul (a b : Dims) : Dims :=
  ⟨a.mass + b.mass, a.length + b.length, a.time + b.time,
   a.temperature + b.temperature, a.current + b.current⟩

/-- Quotient of dimension expressions: exponents subtract. -/
def Dims.div (a b : Dims) : Dims :=
  ⟨a.mass - b.mass, a.length - b.length, a.time - b.time,
   a.temperature - b.temperature, a.current - b.current⟩

/-- Rational power of a dimension expression: exponents scale. -/
def Dims.pow (a : Dims) (q : ℚ) : Dims :=
  ⟨a.mass * q, a.length * q, a.time * q, a.temperature * q, a.current * q⟩

/-- The trivial dimension (sympy `1`). -/
def dimensionless : Dims := ⟨0, 0, 0, 0, 0⟩

/-- `yt.units.dimensions.length`. -/
def dim_length : Dims := ⟨0, 1, 0, 0, 0⟩

/-- `yt.units.dimensions.current_mks` (a base dimension of SI-like systems). -/
def current_mks : Dims := ⟨0, 0, 0, 0, 1⟩

/-- `yt.units.dimensions.magnetic_field_cgs = (mass/length)**(1/2) / time`. -/
def magnetic_field_cgs : Dims := ⟨1/2, -1/2, -1, 0, 0⟩

/-- `yt.units.dimensions.magnetic_field_mks = mass / (current_mks * time**2)`. -/
def magnetic_field_mks : Dims := ⟨1, 0, -2, 0, -1⟩

/-- A unit expression: its dimensionality plus a symbol.  The numeric scale of
a unit plays no role in any claim, so it is not modelled. -/
structure UnitT where
  dims : Dims
  symbol : String
deriving DecidableEq, Repr

/-- A field name `(ftype, fname)`, e.g. `("gas", "magnetic_field_x")`. -/
structure FieldKey where
  ftype : String
  fname : String
deriving DecidableEq, Repr

/-- The two validator kinds used by this module: `ValidateParameter("normal")`
and `ValidateSpatial(ghost_zones, fields)`. -/
inductive Validator where
  | validateParameter (pname : String)
  | validateSpatial (ghost_zones : ℕ) (fields : List FieldKey)
deriving DecidableEq, Repr

/-- The conversion closure installed by `setup_magnetic_field_aliases`:
either a plain rescale `x.in_units(to_units)` or a named equivalence
transform `x.to_equivalent(to_units, equiv)`. -/
inductive Conversion where
  | rescale (target : UnitT)
  | equivalence (target : UnitT) (equivName : String)
deriving DecidableEq, Repr

/-- Tags naming the computation closures the module installs into the
registry.  The geometry-dependent poloidal/toroidal closures get one tag per
geometry branch; the per-axis alias closures carry the wrapped source field
and the conversion fixed at installation time. -/
inductive ComputeTag where
  | strength
  | energy
  | plasmaBeta
  | pressureOfB
  | poloidalCartesian
  | toroidalCartesian
  | poloidalCylindrical
  | toroidalCylindrical
  | poloidalSpherical
  | toroidalSpherical
  | alfvenSpeed
  | machAlfven
  | aliasField (src : FieldKey) (conv : Conversion)
deriving DecidableEq, Repr

/-- Modelled from the spec: a Field Descriptor holds a sampling discipline,
a computation function or `None` (structurally undefined), a target unit
expression and an ordered set of Validators. -/
structure Descriptor where
  sampling_type : String
  func : Option ComputeTag
  units : UnitT
  validators : List Validator
deriving DecidableEq, Repr

/-- Modelled from the spec: the Field Registry (yt's `FieldInfoContainer`,
outside the sources at hand) maps Field Names to Field Descriptors.  We use
an association list with the newest entry first, so insertion is
idempotent-overwrite and lookup returns the most recent registration. -/
def Registry := List (FieldKey × Descriptor)

/-- Modelled from the spec: `install` / `add_field` overwrites any existing
entry (newest entry shadows older ones under `findD`). -/
def addField (r : Registry) (k : FieldKey) (d : Descriptor) : Registry :=
  (k, d) :: r

/-- Modelled from the spec: registry lookup; also the membership test
(`(ftype, name) in registry` holds iff `findD` returns `some`), which is
side-effect-free and triggers no evaluation. -/
def findD : Registry → FieldKey → Option Descriptor
  | [], _ => none
  | (k, d) :: rest, key => if key = k then some d else findD rest key

/-- Modelled from the spec: the evaluation context of the Field Accessor —
the bound scalar parameter names and the available ghost-zone halo width. -/
structure Context where
  params : List String
  ghost : ℕ

/-- Modelled from the spec: whether a validator accepts a context. -/
def Validator.satisfied (v : Validator) (ctx : Context) : Bool :=
  match v with
  | .validateParameter p => ctx.params.contains p
  | .validateSpatial g _ => decide (g ≤ ctx.ghost)

/-- Modelled from the spec: the error taxonomy of §7 relevant to evaluation:
`NotFound`, `PreconditionFailed` (naming the first unmet validator), and
`UndefinedForGeometry` (computation function structurally `None`). -/
inductive EvalError where
  | notFound
  | preconditionFailed (what : String)
  | undefinedForGeometry
deriving DecidableEq, Repr

/-- Modelled from the spec: the name an unmet validator reports. -/
def Validator.name : Validator → String
  | .validateParameter p => p
  | .validateSpatial _ _ => "ghost_zones"

/-- Modelled from the spec (§4.1, §7): `evaluate` resolves the descriptor
(`NotFound` if absent), checks all Validators against the context
(`PreconditionFailed` naming the first unmet one), then dispatches on the
computation function — `UndefinedForGeometry` when it is structurally `None`,
otherwise the function (returned here as its tag) is invoked. -/
def evaluateCheck (r : Registry) (k : FieldKey) (ctx : Context) :
    Except EvalError ComputeTag :=
  match findD r k with
  | none => .error .notFound
  | some d =>
    match d.validators.find? (fun v => ! v.satisfied ctx) with
    | some v => .error (.preconditionFailed v.name)
    | none =>
      match d.func with
      | none => .error .undefinedForGeometry
      | some t => .ok t

/-- The active Unit System (external collaborator): its base-unit dimension
set and its named-unit lookups.  Python's `unit_system[key]` accepts both a
name string and a dimension expression; we model the two access paths as two
functions. -/
structure UnitSystem where
  base_units : List Dims
  unitFor : String → UnitT
  unitForDims : Dims → UnitT

/-- The dataset metadata consumed by the setup routines: the active unit
system, the coordinate axis ordering, and the geometry kind. -/
structure Dataset where
  unit_system : UnitSystem
  axis_order : List String
  geometry : String

/-- `axis_names[i]` for the axis-order list (yt axis orders always have three
entries, so the fallback is never reached for real datasets). -/
def axn (l : List String) (i : ℕ) : String := l.getD i ""

/-- The geometry dispatch of `setup_magnetic_field_fields` (the
`if/elif/else` chain over `registry.ds.geometry`): which poloidal and
toroidal closures are installed — `None` for an unidentified geometry. -/
def polTorTags (geometry : String) : Option ComputeTag × Option ComputeTag :=
  if geometry = "cartesian" then
    (some .poloidalCartesian, some .toroidalCartesian)
  else if geometry = "cylindrical" then
    (some .poloidalCylindrical, some .toroidalCylindrical)
  else if geometry = "spherical" then
    (some .poloidalSpherical, some .toroidalSpherical)
  else
    (none, none)

/-- Embedding of `setup_magnetic_field_fields` (the registry-facing part):
guard on the first-axis primitive field, then register the derived fields in
source order.  The geometry dispatch resolves once, at install time. -/
def setup_magnetic_field_fields (ds : Dataset) (r : Registry) (ftype : String) :
    Registry :=
  let unit_system := ds.unit_system
  let axis_names := ds.axis_order
  match findD r ⟨ftype, "magnetic_field_" ++ axn axis_names 0⟩ with
  | none => r
  | some d0 =>
    let u := d0.units
    let polTor := polTorTags ds.geometry
    let r1 := addField r ⟨ftype, "magnetic_field_strength"⟩
      ⟨"cell", some .strength, u, []⟩
    let r2 := addField r1 ⟨ftype, "magnetic_energy"⟩
      ⟨"cell", some .energy, unit_system.unitFor "pressure", []⟩
    let r3 := addField r2 ⟨ftype, "plasma_beta"⟩
      ⟨"cell", some .plasmaBeta, ⟨dimensionless, ""⟩, []⟩
    let r4 := addField r3 ⟨ftype, "magnetic_pressure"⟩
      ⟨"cell", some .pressureOfB, unit_system.unitFor "pressure", []⟩
    let r5 := addField r4 ⟨ftype, "magnetic_field_poloidal"⟩
      ⟨"cell", polTor.1, u, [.validateParameter "normal"]⟩
    let r6 := addField r5 ⟨ftype, "magnetic_field_toroidal"⟩
      ⟨"cell", polTor.2, u, [.validateParameter "normal"]⟩
    let r7 := addField r6 ⟨ftype, "alfven_speed"⟩
      ⟨"cell", some .alfvenSpeed, unit_system.unitFor "velocity", []⟩
    addField r7 ⟨ftype, "mach_alfven"⟩
      ⟨"cell", some .machAlfven, ⟨dimensionless, "dimensionless"⟩, []⟩

/-- Embedding of `setup_magnetic_field_aliases`: guard on the first
dataset-native field; fix target unit and equivalence name once, by testing
`dimensions.current_mks in unit_system.base_units`; fix the conversion
closure once, by comparing source and target dimensionality; then install
one alias per axis, in the dataset's declared axis order. -/
def setup_magnetic_field_aliases (ds : Dataset) (r : Registry)
    (ds_ftype : String) (ds_fields : List String) (ftype : String) : Registry :=
  let unit_system := ds.unit_system
  match ds_fields.map (fun fd => FieldKey.mk ds_ftype fd) with
  | [] => r
  | fd0 :: rest =>
    match findD r fd0 with
    | none => r
    | some dsc0 =>
      let from_units := dsc0.units
      let tuEq : UnitT × String :=
        if current_mks ∈ unit_system.base_units then
          (unit_system.unitFor "magnetic_field_mks", "SI")
        else
          (unit_system.unitFor "magnetic_field_cgs", "CGS")
      let convert : Conversion :=
        if from_units.dims = tuEq.1.dims then .rescale tuEq.1
        else .equivalence tuEq.1 tuEq.2
      (ds.axis_order.zip (fd0 :: rest)).foldl
        (fun acc p => addField acc ⟨ftype, "magnetic_field_" ++ p.1⟩
          ⟨"cell", some (.aliasField p.2 convert),
           unit_system.unitForDims tuEq.1.dims, []⟩) r

noncomputable section

/-- A scalar physical quantity: a real number tagged with a dimension
(the numeric value is taken in the quantity's own units; unit rescales play
no role in any claim). -/
structure Quantity where
  num : ℝ
  dims : Dims

/-- `yt.utilities.physical_constants.mu_0 = 4.0e-7*pi` in SI units
(`N/A**2`, i.e. dimensions `mass*length/(time**2*current**2)`). -/
def mu_0 : Quantity := ⟨4 * Real.pi / 10000000, ⟨1, 1, -2, 0, -2⟩⟩

/-- `yt.utilities.physical_constants.c`, the speed of light, in cgs
(`2.99792458e10 cm/s`). -/
def c : Quantity := ⟨29979245800, ⟨0, 1, -1, 0, 0⟩⟩

/-- A unit-tagged array as handled by the module: a 3-d shape, a total value
function, and a single dimension tag for the whole array (as in `yt`, where
one unit is attached to the array).  Values outside the shape are irrelevant
to every claim. -/
structure YTArr where
  nx : ℕ
  ny : ℕ
  nz : ℕ
  val : ℕ → ℕ → ℕ → ℝ
  dims : Dims

/-- Elementwise sum.  unyt requires both operands to share dimensionality;
the result carries the left operand's shape and dimension tag. -/
def YTArr.add (a b : YTArr) : YTArr :=
  ⟨a.nx, a.ny, a.nz, fun i j k => a.val i j k + b.val i j k, a.dims⟩

/-- Elementwise difference (same conventions as `YTArr.add`). -/
def YTArr.sub (a b : YTArr) : YTArr :=
  ⟨a.nx, a.ny, a.nz, fun i j k => a.val i j k - b.val i j k, a.dims⟩

/-- Elementwise product; dimensions multiply. -/
def YTArr.mulA (a b : YTArr) : YTArr :=
  ⟨a.nx, a.ny, a.nz, fun i j k => a.val i j k * b.val i j k, a.dims.mul b.dims⟩

/-- Elementwise quotient of two arrays; dimensions divide. -/
def YTArr.divA (a b : YTArr) : YTArr :=
  ⟨a.nx, a.ny, a.nz, fun i j k => a.val i j k / b.val i j k, a.dims.div b.dims⟩

/-- Multiplication by a plain float: dimensions unchanged. -/
def YTArr.smul (r : ℝ) (a : YTArr) : YTArr :=
  ⟨a.nx, a.ny, a.nz, fun i j k => r * a.val i j k, a.dims⟩

/-- Division of an array by a scalar quantity; dimensions divide. -/
def YTArr.divQ (a : YTArr) (q : Quantity) : YTArr :=
  ⟨a.nx, a.ny, a.nz, fun i j k => a.val i j k / q.num, a.dims.div q.dims⟩

/-- `a**2` on a unyt array: values square, dimensions multiply with
themselves. -/
def YTArr.sq (a : YTArr) : YTArr :=
  ⟨a.nx, a.ny, a.nz, fun i j k => (a.val i j k) ^ 2, a.dims.mul a.dims⟩

/-- `np.sqrt` on a unyt array: values under `sqrt`, dimensions to the
power `1/2`. -/
def YTArr.sqrtA (a : YTArr) : YTArr :=
  ⟨a.nx, a.ny, a.nz, fun i j k => Real.sqrt (a.val i j k), a.dims.pow (1/2)⟩

/-- Multiplication of a scalar quantity by a plain float (`div_fac * dy`). -/
def Quantity.smulQ (r : ℝ) (q : Quantity) : Quantity := ⟨r * q.num, q.dims⟩

/-- A plain float divided by a scalar quantity (`4.0*np.pi/c`). -/
def Quantity.rdivQ (r : ℝ) (q : Quantity) : Quantity :=
  ⟨r / q.num, dimensionless.div q.dims⟩

/-- `mag_factors` (module line 40): a two-entry map from dimension
expressions to convention factors — `4*pi` (dimensionless) at the Gaussian
magnetic-field dimension, `mu_0` at the SI magnetic-field dimension.
A Python `dict` raises `KeyError` on any other key, hence `Option`. -/
def mag_factors (d : Dims) : Option Quantity :=
  if d = magnetic_field_cgs then some ⟨4 * Real.pi, dimensionless⟩
  else if d = magnetic_field_mks then some mu_0
  else none

/-- `_magnetic_field_strength`: `sqrt(B0**2 + B1**2 + B2**2)`, the three
axis components in the dataset's axis order. -/
def _magnetic_field_strength (B0 B1 B2 : YTArr) : YTArr :=
  ((B0.sq.add B1.sq).add B2.sq).sqrtA

/-- `_magnetic_energy`: `0.5*B*B/mag_factors[B.units.dimensions]`, `B` the
strength array; `none` models the `KeyError` on an unlisted dimension. -/
def _magnetic_energy (B : YTArr) : Option YTArr :=
  (mag_factors B.dims).map fun fac => ((YTArr.smul 0.5 B).mulA B).divQ fac

/-- Modelled from the spec: the energy formula as claim C1 words it, with the
convention factor looked up at the dimensionality of the squared-strength
value itself (`0.5*B*B`) rather than at the strength's own dimensionality.
Defined only to be compared against `_magnetic_energy`. -/
def magnetic_energy_squaredKeyed (B : YTArr) : Option YTArr :=
  (mag_factors ((YTArr.smul 0.5 B).mulA B).dims).map fun fac =>
    ((YTArr.smul 0.5 B).mulA B).divQ fac

/-- `_magnetic_pressure`: returns the `magnetic_energy` value unchanged. -/
def _magnetic_pressure (magnetic_energy : YTArr) : YTArr := magnetic_energy

/-- The cylindrical-geometry `_magnetic_field_poloidal`:
`B_r*(r/d) + B_z*(z/d)` with `d = sqrt(r*r + z*z)`. -/
def _magnetic_field_poloidal_cyl (Br Bz r z : YTArr) : YTArr :=
  let d := ((r.mulA r).add (z.mulA z)).sqrtA
  (Br.mulA (r.divA d)).add (Bz.mulA (z.divA d))

/-- The cylindrical-geometry `_magnetic_field_toroidal`: the azimuthal
component unchanged. -/
def _magnetic_field_toroidal_cyl (Btheta : YTArr) : YTArr := Btheta

/-- The spherical-geometry `_magnetic_field_poloidal`: the polar-angle
component unchanged. -/
def _magnetic_field_poloidal_sph (Btheta : YTArr) : YTArr := Btheta

/-- The spherical-geometry `_magnetic_field_toroidal`: the azimuthal
component unchanged. -/
def _magnetic_field_toroidal_sph (Bphi : YTArr) : YTArr := Bphi

/-- Slicing with the default stencil of
`setup_current_density_vector_fields`: each of the three slices
`slice(None,-2)` (offset 0), `slice(1,-1)` (offset 1), `slice(2,None)`
(offset 2) keeps `n - 2` entries of a length-`n` axis, shifted by its
offset. -/
def YTArr.slc (a : YTArr) (o1 o2 o3 : ℕ) : YTArr :=
  ⟨a.nx - 2, a.ny - 2, a.nz - 2,
   fun i j k => a.val (i + o1) (j + o2) (k + o3), a.dims⟩

/-- `np.zeros_like(base)` re-tagged with dimension `d` (the module tags the
zero array with the units of the just-computed difference `f`). -/
def zerosLike (base : YTArr) (d : Dims) : YTArr :=
  ⟨base.nx, base.ny, base.nz, fun _ _ _ => 0, d⟩

/-- `new_field[1:-1, 1:-1, 1:-1] = f`: writes `f` into the centre-trimmed
interior of `base`; everything else keeps `base`'s value. -/
def setCenter (base f : YTArr) : YTArr :=
  ⟨base.nx, base.ny, base.nz,
   fun i j k =>
     if 1 ≤ i ∧ i + 1 < base.nx ∧ 1 ≤ j ∧ j + 1 < base.ny ∧
        1 ≤ k ∧ k + 1 < base.nz then
       f.val (i - 1) (j - 1) (k - 1)
     else base.val i j k,
   base.dims⟩

/-- `j_factors` (module lines 229-230): the two-entry Ampère's-law factor
map — `4*pi/c` at the Gaussian magnetic-field dimension over length, `mu_0`
at the SI one; `KeyError` (`none`) elsewhere. -/
def j_factors (d : Dims) : Option Quantity :=
  if d = magnetic_field_cgs.div dim_length then
    some (Quantity.rdivQ (4 * Real.pi) c)
  else if d = magnetic_field_mks.div dim_length then some mu_0
  else none

/-- `_current_density_x` with the default stencil:
`f = (Bz[c,r,c]-Bz[c,l,c])/(2*dy) - (By[c,c,r]-By[c,c,l])/(2*dz)`, written
into the interior of a zero array shaped like `Bz`, then divided by the
`j_factors` entry at the result's own dimensionality. -/
def _current_density_x (Bx By Bz : YTArr) (dx dy dz : Quantity) :
    Option YTArr :=
  let f := (((Bz.slc 1 2 1).sub (Bz.slc 1 0 1)).divQ (Quantity.smulQ 2 dy)).sub
           (((By.slc 1 1 2).sub (By.slc 1 1 0)).divQ (Quantity.smulQ 2 dz))
  let new_field := setCenter (zerosLike Bz f.dims) f
  (j_factors new_field.dims).map fun jf => new_field.divQ jf

/-- `_current_density_y` with the default stencil:
`f = (Bx[c,c,r]-Bx[c,c,l])/(2*dz) - (Bz[r,c,c]-Bz[l,c,c])/(2*dx)`; the zero
array is again shaped like `Bz`. -/
def _current_density_y (Bx By Bz : YTArr) (dx dy dz : Quantity) :
    Option YTArr :=
  let f := (((Bx.slc 1 1 2).sub (Bx.slc 1 1 0)).divQ (Quantity.smulQ 2 dz)).sub
           (((Bz.slc 2 1 1).sub (Bz.slc 0 1 1)).divQ (Quantity.smulQ 2 dx))
  let new_field := setCenter (zerosLike Bz f.dims) f
  (j_factors new_field.dims).map fun jf => new_field.divQ jf

/-- `_current_density_z` with the default stencil:
`f = (By[r,c,c]-By[l,c,c])/(2*dx) - (Bx[c,r,c]-Bx[c,l,c])/(2*dy)`; the zero
array is shaped like `Bz`, which this component never differences. -/
def _current_density_z (Bx By Bz : YTArr) (dx dy dz : Quantity) :
    Option YTArr :=
  let f := (((By.slc 2 1 1).sub (By.slc 0 1 1)).divQ (Quantity.smulQ 2 dx)).sub
           (((Bx.slc 1 2 1).sub (Bx.slc 1 0 1)).divQ (Quantity.smulQ 2 dy))
  let new_field := setCenter (zerosLike Bz f.dims) f
  (j_factors new_field.dims).map fun jf => new_field.divQ jf

end

noncomputable section

/-- Concrete strength array (all ones, Gaussian dimension) for witnesses. -/
def cB1 : YTArr := ⟨1, 1, 1, fun _ _ _ => 1, magnetic_field_cgs⟩

/-- The energy array the module computes from `cB1`. -/
def cE1 : YTArr :=
  ((YTArr.smul 0.5 cB1).mulA cB1).divQ ⟨4 * Real.pi, dimensionless⟩

/-- Component array uniformly valued `3` (Gaussian dimension). -/
def cB3 : YTArr := ⟨2, 2, 2, fun _ _ _ => 3, magnetic_field_cgs⟩

/-- Component array uniformly valued `4` (Gaussian dimension). -/
def cB4 : YTArr := ⟨2, 2, 2, fun _ _ _ => 4, magnetic_field_cgs⟩

/-- Component array uniformly valued `0` (Gaussian dimension). -/
def cB0 : YTArr := ⟨2, 2, 2, fun _ _ _ => 0, magnetic_field_cgs⟩

/-- The three components `3, 4, 0` indexed by axis. -/
def bFix : Fin 3 → YTArr := fun n => if n = 0 then cB3 else if n = 1 then cB4 else cB0

/-- Concrete x magnetic-field component for current-density witnesses. -/
def cBx : YTArr := ⟨3, 3, 3, fun i _ _ => (i : ℝ), magnetic_field_cgs⟩

/-- Concrete y magnetic-field component for current-density witnesses. -/
def cBy : YTArr := ⟨3, 3, 3, fun _ j _ => (j : ℝ), magnetic_field_cgs⟩

/-- Concrete z magnetic-field component for current-density witnesses. -/
def cBz : YTArr := ⟨3, 3, 3, fun _ _ k => (k : ℝ), magnetic_field_cgs⟩

/-- Concrete grid spacing along x. -/
def cdx : Quantity := ⟨1, dim_length⟩

/-- Concrete grid spacing along y. -/
def cdy : Quantity := ⟨1, dim_length⟩

/-- Concrete grid spacing along z. -/
def cdz : Quantity := ⟨1, dim_length⟩

/-- The Gaussian Ampère's-law factor `4*pi/c`. -/
def jFactorCGS : Quantity := Quantity.rdivQ (4 * Real.pi) c

/-- The raw stencil difference of `_current_density_x` at the witness data. -/
def cFx : YTArr :=
  (((cBz.slc 1 2 1).sub (cBz.slc 1 0 1)).divQ (Quantity.smulQ 2 cdy)).sub
  (((cBy.slc 1 1 2).sub (cBy.slc 1 1 0)).divQ (Quantity.smulQ 2 cdz))

/-- The `current_density_x` result at the witness data. -/
def cJx : YTArr := (setCenter (zerosLike cBz cFx.dims) cFx).divQ jFactorCGS

/-- The raw stencil difference of `_current_density_y` at the witness data. -/
def cFy : YTArr :=
  (((cBx.slc 1 1 2).sub (cBx.slc 1 1 0)).divQ (Quantity.smulQ 2 cdz)).sub
  (((cBz.slc 2 1 1).sub (cBz.slc 0 1 1)).divQ (Quantity.smulQ 2 cdx))

/-- The `current_density_y` result at the witness data. -/
def cJy : YTArr := (setCenter (zerosLike cBz cFy.dims) cFy).divQ jFactorCGS

/-- The raw stencil difference of `_current_density_z` at the witness data. -/
def cFz : YTArr :=
  (((cBy.slc 2 1 1).sub (cBy.slc 0 1 1)).divQ (Quantity.smulQ 2 cdx)).sub
  (((cBx.slc 1 2 1).sub (cBx.slc 1 0 1)).divQ (Quantity.smulQ 2 cdy))

/-- The `current_density_z` result at the witness data. -/
def cJz : YTArr := (setCenter (zerosLike cBz cFz.dims) cFz).divQ jFactorCGS

end

/-- A primitive-field descriptor carrying SI magnetic-field units. -/
def bDescMKS : Descriptor := ⟨"cell", none, ⟨magnetic_field_mks, "T"⟩, []⟩

/-- An SI-like unit system fixture (`current_mks` among the base units). -/
def usFix : UnitSystem :=
  ⟨[current_mks],
   fun n => if n = "magnetic_field_mks" then ⟨magnetic_field_mks, "T"⟩
            else ⟨dimensionless, n⟩,
   fun d => ⟨d, "auto"⟩⟩

/-- A Cartesian dataset fixture. -/
def dsFix : Dataset := ⟨usFix, ["x", "y", "z"], "cartesian"⟩

/-- A dataset fixture with an unidentified geometry. -/
def dsWeird : Dataset := ⟨usFix, ["x", "y", "z"], "polar"⟩

/-- A cylindrical dataset fixture. -/
def dsCyl : Dataset := ⟨usFix, ["r", "z", "theta"], "cylindrical"⟩

/-- A spherical dataset fixture. -/
def dsSph : Dataset := ⟨usFix, ["r", "theta", "phi"], "spherical"⟩

/-- A registry holding the first-axis Cartesian primitive field. -/
def rFix : Registry := [(⟨"gas", "magnetic_field_x"⟩, bDescMKS)]

/-- A registry holding the first-axis cylindrical primitive field. -/
def rCyl : Registry := [(⟨"gas", "magnetic_field_r"⟩, bDescMKS)]

/-- A registry holding one dataset-native magnetic field. -/
def rChombo : Registry := [(⟨"chombo", "bx1"⟩, bDescMKS)]

/-- The empty registry. -/
def rEmpty : Registry := []

/-- A context with the "normal" parameter bound. -/
def ctxNormal : Context := ⟨["normal"], 1⟩

/-- A context with no parameters bound. -/
def ctxBare : Context := ⟨[], 1⟩

/-- Lookup immediately after an insertion finds the inserted descriptor. -/
theorem findD_addField_self (r : Registry) (k : FieldKey) (d : Descriptor) :
    findD (addField r k d) k = some d := by
  simp [addField, findD]

/-- Insertion under a different key leaves a lookup unchanged. -/
theorem findD_addField_ne (r : Registry) (k k2 : FieldKey) (d : Descriptor)
    (h : k2 ≠ k) : findD (addField r k d) k2 = findD r k2 := by
  simp [addField, findD, h]

/-- Appending on the left of a string is injective on the right factor. -/
theorem string_append_left_cancel {s t u : String} (h : s ++ t = s ++ u) :
    t = u := by
  cases s with
  | mk ls =>
    cases t with
    | mk lt =>
      cases u with
      | mk lu =>
        have hd : ls ++ lt = ls ++ lu := congrArg String.data h
        exact congrArg String.mk (List.append_cancel_left hd)

/-- The first components of a zip form a sublist of the first list. -/
theorem map_fst_zip_sublist {α β : Type} (l1 : List α) (l2 : List β) :
    ((l1.zip l2).map Prod.fst).Sublist l1 := by
  induction l1 generalizing l2 with
  | nil => simp
  | cons a l1 ih =>
    cases l2 with
    | nil => simp
    | cons b l2 => simpa using (ih l2).cons₂ a

/-- Folding alias installations over pairs whose keys all differ from `key`
leaves the lookup at `key` unchanged. -/
theorem findD_foldl_notmem (l : List (String × FieldKey)) (r : Registry)
    (g : String × FieldKey → Descriptor) (ftype : String) (key : FieldKey)
    (h : ∀ p ∈ l, key ≠ FieldKey.mk ftype ("magnetic_field_" ++ p.1)) :
    findD (l.foldl
      (fun acc p => addField acc ⟨ftype, "magnetic_field_" ++ p.1⟩ (g p)) r)
      key = findD r key := by
  induction l generalizing r with
  | nil => rfl
  | cons p ps ih =>
    have step := ih (addField r ⟨ftype, "magnetic_field_" ++ p.1⟩ (g p))
      (fun q hq => h q (List.mem_cons_of_mem p hq))
    calc findD ((p :: ps).foldl
          (fun acc q => addField acc ⟨ftype, "magnetic_field_" ++ q.1⟩ (g q)) r)
          key
        = findD (ps.foldl
          (fun acc q => addField acc ⟨ftype, "magnetic_field_" ++ q.1⟩ (g q))
          (addField r ⟨ftype, "magnetic_field_" ++ p.1⟩ (g p))) key := rfl
      _ = findD (addField r ⟨ftype, "magnetic_field_" ++ p.1⟩ (g p)) key := step
      _ = findD r key := findD_addField_ne _ _ _ _ (h p (List.mem_cons_self p ps))

/-- Folding alias installations over pairs with pairwise-distinct axis names
makes the lookup at an installed axis find exactly the descriptor installed
for it. -/
theorem findD_foldl_mem (l : List (String × FieldKey)) (r : Registry)
    (g : String × FieldKey → Descriptor) (ftype ax : String) (fd : FieldKey)
    (hnd : (l.map Prod.fst).Nodup) (hmem : (ax, fd) ∈ l) :
    findD (l.foldl
      (fun acc p => addField acc ⟨ftype, "magnetic_field_" ++ p.1⟩ (g p)) r)
      ⟨ftype, "magnetic_field_" ++ ax⟩ = some (g (ax, fd)) := by
  induction l generalizing r with
  | nil => cases hmem
  | cons p ps ih =>
    simp only [List.map_cons, List.nodup_cons] at hnd
    rcases List.mem_cons.mp hmem with heq | hmem2
    · have hax : ax = p.1 := by rw [← heq]
      have hnot : ∀ q ∈ ps,
          (FieldKey.mk ftype ("magnetic_field_" ++ ax)) ≠
            FieldKey.mk ftype ("magnetic_field_" ++ q.1) := by
        intro q hq hkey
        have haxq : ax = q.1 :=
          string_append_left_cancel (congrArg FieldKey.fname hkey)
        have hmem3 : p.1 ∈ ps.map Prod.fst := by
          rw [← hax, haxq]
          exact List.mem_map_of_mem Prod.fst hq
        exact hnd.1 hmem3
      have hstep := findD_foldl_notmem ps
        (addField r ⟨ftype, "magnetic_field_" ++ p.1⟩ (g p)) g ftype
        ⟨ftype, "magnetic_field_" ++ ax⟩ hnot
      calc findD ((p :: ps).foldl
            (fun acc q => addField acc ⟨ftype, "magnetic_field_" ++ q.1⟩ (g q))
            r) ⟨ftype, "magnetic_field_" ++ ax⟩
          = findD (addField r ⟨ftype, "magnetic_field_" ++ p.1⟩ (g p))
            ⟨ftype, "magnetic_field_" ++ ax⟩ := hstep
        _ = some (g (ax, fd)) := by rw [← heq, findD_addField_self]
    · exact ih (addField r ⟨ftype, "magnetic_field_" ++ p.1⟩ (g p))
        hnd.2 hmem2

/-- Halving the exponents of a squared dimension recovers it. -/
theorem dims_mul_pow_half (d : Dims) : (d.mul d).pow (1/2) = d := by
  cases d
  simp only [Dims.mul, Dims.pow, Dims.mk.injEq]
  refine ⟨by ring, by ring, by ring, by ring, by ring⟩

/-- C1 (amended): for every evaluation of the magnetic_energy field, the
result equals `0.5 * strength^2` divided by a convention factor obtained by
a Dimension-Key map lookup keyed on the dimensionality of the strength value
itself (not of the squared strength, and not a static unit-system flag); the
map contains exactly two entries, `4*pi` at the Gaussian/CGS magnetic-field
dimension and `mu_0` at the SI/MKS magnetic-field dimension. -/
theorem magnetic_energy_strength_keyed_dispatch (B E : YTArr)
    (hE : _magnetic_energy B = some E) :
    (B.dims = magnetic_field_cgs ∨ B.dims = magnetic_field_mks) ∧
    mag_factors magnetic_field_cgs = some ⟨4 * Real.pi, dimensionless⟩ ∧
    mag_factors magnetic_field_mks = some mu_0 ∧
    (∀ d : Dims, d ≠ magnetic_field_cgs → d ≠ magnetic_field_mks →
       mag_factors d = none) ∧
    (B.dims = magnetic_field_cgs →
       (∀ i j k, E.val i j k = 0.5 * (B.val i j k) ^ 2 / (4 * Real.pi)) ∧
       E.dims = (B.dims.mul B.dims).div dimensionless) ∧
    (B.dims = magnetic_field_mks →
       (∀ i j k, E.val i j k = 0.5 * (B.val i j k) ^ 2 / mu_0.num) ∧
       E.dims = (B.dims.mul B.dims).div mu_0.dims) := by
  have hcgs : mag_factors magnetic_field_cgs =
      some ⟨4 * Real.pi, dimensionless⟩ := by
    unfold mag_factors
    rw [if_pos rfl]
  have hne : magnetic_field_mks ≠ magnetic_field_cgs := by
    simp [magnetic_field_mks, magnetic_field_cgs, Dims.mk.injEq]
  have hmks : mag_factors magnetic_field_mks = some mu_0 := by
    unfold mag_factors
    rw [if_neg hne, if_pos rfl]
  have hnone : ∀ d : Dims, d ≠ magnetic_field_cgs → d ≠ magnetic_field_mks →
      mag_factors d = none := by
    intro d h1 h2
    unfold mag_factors
    rw [if_neg h1, if_neg h2]
  by_cases hc : B.dims = magnetic_field_cgs
  · have hEe : E = ((YTArr.smul 0.5 B).mulA B).divQ ⟨4 * Real.pi, dimensionless⟩ := by
      unfold _magnetic_energy at hE
      rw [hc, hcgs] at hE
      exact (Option.some.inj hE).symm
    refine ⟨Or.inl hc, hcgs, hmks, hnone, fun _ => ⟨?_, ?_⟩, fun hm => ?_⟩
    · intro i j k
      rw [hEe]
      show 0.5 * B.val i j k * B.val i j k / (4 * Real.pi) = _
      ring
    · rw [hEe]; rfl
    · exact absurd (hc ▸ hm) hne.symm
  · by_cases hm : B.dims = magnetic_field_mks
    · have hEe : E = ((YTArr.smul 0.5 B).mulA B).divQ mu_0 := by
        unfold _magnetic_energy at hE
        rw [hm, hmks] at hE
        exact (Option.some.inj hE).symm
      refine ⟨Or.inr hm, hcgs, hmks, hnone, fun hc2 => absurd hc2 hc,
        fun _ => ⟨?_, ?_⟩⟩
      · intro i j k
        rw [hEe]
        show 0.5 * B.val i j k * B.val i j k / mu_0.num = _
        ring
      · rw [hEe]; rfl
    · exfalso
      unfold _magnetic_energy at hE
      rw [hnone B.dims hc hm] at hE
      exact Option.noConfusion hE

/-- C1 witness: the amended dispatch applied at an all-ones Gaussian-unit
strength array. -/
theorem magnetic_energy_strength_keyed_dispatch_witness :
    _magnetic_energy cB1 = some cE1 ∧
    cE1.val 0 0 0 = 0.5 * (cB1.val 0 0 0) ^ 2 / (4 * Real.pi) ∧
    cE1.dims = (cB1.dims.mul cB1.dims).div dimensionless := by
  have hfac : mag_factors cB1.dims = some ⟨4 * Real.pi, dimensionless⟩ := by
    unfold mag_factors
    rw [if_pos (show cB1.dims = magnetic_field_cgs from rfl)]
  have hE : _magnetic_energy cB1 = some cE1 := by
    unfold _magnetic_energy
    rw [hfac]
    rfl
  have h := (magnetic_energy_strength_keyed_dispatch cB1 cE1 hE).2.2.2.2.1 rfl
  exact ⟨hE, h.1 0 0 0, h.2⟩

/-- C1 counterexample: at an all-ones Gaussian-unit strength array, the
lookup the claim prescribes — keyed on the dimensionality of the squared
strength — has no entry (the spec-worded computation yields no value), while
the module's own energy computation succeeds. -/
theorem magnetic_energy_squared_key_fails :
    magnetic_energy_squaredKeyed cB1 = none ∧ _magnetic_energy cB1 ≠ none := by
  constructor
  · have hd : mag_factors ((YTArr.smul 0.5 cB1).mulA cB1).dims = none := by
      unfold mag_factors
      rw [if_neg ?h1, if_neg ?h2]
      case h1 =>
        show ¬ (cB1.dims.mul cB1.dims = magnetic_field_cgs)
        simp [cB1, Dims.mul, magnetic_field_cgs, Dims.mk.injEq]
      case h2 =>
        show ¬ (cB1.dims.mul cB1.dims = magnetic_field_mks)
        simp [cB1, Dims.mul, magnetic_field_cgs, magnetic_field_mks,
          Dims.mk.injEq]
    unfold magnetic_energy_squaredKeyed
    rw [hd]
    rfl
  · have hfac : mag_factors cB1.dims = some ⟨4 * Real.pi, dimensionless⟩ := by
      unfold mag_factors
      rw [if_pos (show cB1.dims = magnetic_field_cgs from rfl)]
    unfold _magnetic_energy
    rw [hfac]
    exact Option.noConfusion

/-- C5: for three components with identical units, the strength field is
`sqrt` of the sum of the squared components, invariant under every
permutation of the axis order, its dimension is exactly the shared component
dimension, and uniform components `3, 4, 0` give strength `5` at every
cell. -/
theorem magnetic_field_strength_spec (B : Fin 3 → YTArr) (d : Dims)
    (hd : ∀ n, (B n).dims = d) :
    (_magnetic_field_strength (B 0) (B 1) (B 2)).dims = d ∧
    (∀ i j k, (_magnetic_field_strength (B 0) (B 1) (B 2)).val i j k =
       Real.sqrt ((B 0).val i j k ^ 2 + (B 1).val i j k ^ 2 +
         (B 2).val i j k ^ 2)) ∧
    (∀ σ : Equiv.Perm (Fin 3), ∀ i j k,
       (_magnetic_field_strength (B (σ 0)) (B (σ 1)) (B (σ 2))).val i j k =
       (_magnetic_field_strength (B 0) (B 1) (B 2)).val i j k) ∧
    (∀ nx ny nz : ℕ, ∀ d2 : Dims, ∀ i j k : ℕ,
       (_magnetic_field_strength ⟨nx, ny, nz, fun _ _ _ => 3, d2⟩
          ⟨nx, ny, nz, fun _ _ _ => 4, d2⟩
          ⟨nx, ny, nz, fun _ _ _ => 0, d2⟩).val i j k = 5) := by
  refine ⟨?_, ?_, ?_, ?_⟩
  · show ((B 0).dims.mul (B 0).dims).pow (1/2) = d
    rw [hd 0, dims_mul_pow_half]
  · intro i j k
    rfl
  · intro σ i j k
    show Real.sqrt ((B (σ 0)).val i j k ^ 2 + (B (σ 1)).val i j k ^ 2 +
        (B (σ 2)).val i j k ^ 2) =
      Real.sqrt ((B 0).val i j k ^ 2 + (B 1).val i j k ^ 2 +
        (B 2).val i j k ^ 2)
    congr 1
    calc (B (σ 0)).val i j k ^ 2 + (B (σ 1)).val i j k ^ 2 +
          (B (σ 2)).val i j k ^ 2
        = ∑ n : Fin 3, (B (σ n)).val i j k ^ 2 :=
          (Fin.sum_univ_three fun n => (B (σ n)).val i j k ^ 2).symm
      _ = ∑ n : Fin 3, (B n).val i j k ^ 2 :=
          Equiv.sum_comp σ fun n => (B n).val i j k ^ 2
      _ = (B 0).val i j k ^ 2 + (B 1).val i j k ^ 2 + (B 2).val i j k ^ 2 :=
          Fin.sum_univ_three fun n => (B n).val i j k ^ 2
  · intro nx ny nz d2 i j k
    show Real.sqrt ((3:ℝ) ^ 2 + (4:ℝ) ^ 2 + (0:ℝ) ^ 2) = 5
    rw [show (3:ℝ) ^ 2 + (4:ℝ) ^ 2 + (0:ℝ) ^ 2 = 5 ^ 2 from by norm_num,
      Real.sqrt_sq (by norm_num : (0:ℝ) ≤ 5)]

/-- C5 witness: the strength specification applied at components uniformly
valued `3, 4, 0` with the Gaussian magnetic-field dimension. -/
theorem magnetic_field_strength_spec_witness :
    (_magnetic_field_strength (bFix 0) (bFix 1) (bFix 2)).dims =
      magnetic_field_cgs ∧
    (_magnetic_field_strength ⟨2, 2, 2, fun _ _ _ => 3, magnetic_field_cgs⟩
        ⟨2, 2, 2, fun _ _ _ => 4, magnetic_field_cgs⟩
        ⟨2, 2, 2, fun _ _ _ => 0, magnetic_field_cgs⟩).val 0 0 0 = 5 := by
  have hd : ∀ n, (bFix n).dims = magnetic_field_cgs := by
    intro n
    fin_cases n <;> rfl
  have h := magnetic_field_strength_spec bFix magnetic_field_cgs hd
  exact ⟨h.1, h.2.2.2 2 2 2 magnetic_field_cgs 0 0 0⟩

/-- C6: with cylindrical geometry the installed poloidal/toroidal closures
are the cylindrical ones, with spherical geometry the spherical ones; the
cylindrical poloidal value is the projection
`(B_r*r + B_z*z)/sqrt(r^2 + z^2)`, the cylindrical toroidal and both
spherical decompositions return the stored component unchanged, with no
projection arithmetic. -/
theorem poloidal_toroidal_degenerate_geometries
    (ds : Dataset) (r : Registry) (ftype : String) (d0 : Descriptor)
    (hguard : findD r ⟨ftype, "magnetic_field_" ++ axn ds.axis_order 0⟩ =
      some d0) :
    (ds.geometry = "cylindrical" →
       (findD (setup_magnetic_field_fields ds r ftype)
           ⟨ftype, "magnetic_field_poloidal"⟩).map Descriptor.func =
         some (some .poloidalCylindrical) ∧
       (findD (setup_magnetic_field_fields ds r ftype)
           ⟨ftype, "magnetic_field_toroidal"⟩).map Descriptor.func =
         some (some .toroidalCylindrical)) ∧
    (ds.geometry = "spherical" →
       (findD (setup_magnetic_field_fields ds r ftype)
           ⟨ftype, "magnetic_field_poloidal"⟩).map Descriptor.func =
         some (some .poloidalSpherical) ∧
       (findD (setup_magnetic_field_fields ds r ftype)
           ⟨ftype, "magnetic_field_toroidal"⟩).map Descriptor.func =
         some (some .toroidalSpherical)) ∧
    (∀ Br Bz rad zed : YTArr, ∀ i j k : ℕ,
       (_magnetic_field_poloidal_cyl Br Bz rad zed).val i j k =
         (Br.val i j k * rad.val i j k + Bz.val i j k * zed.val i j k) /
           Real.sqrt (rad.val i j k ^ 2 + zed.val i j k ^ 2)) ∧
    (∀ Bt, _magnetic_field_toroidal_cyl Bt = Bt) ∧
    (∀ Bt, _magnetic_field_poloidal_sph Bt = Bt) ∧
    (∀ Bp, _magnetic_field_toroidal_sph Bp = Bp) := by
  refine ⟨?_, ?_, ?_, fun _ => rfl, fun _ => rfl, fun _ => rfl⟩
  · intro hgeo
    constructor <;>
      simp [setup_magnetic_field_fields, polTorTags, hguard, hgeo, addField,
        findD, FieldKey.mk.injEq]
  · intro hgeo
    constructor <;>
      simp [setup_magnetic_field_fields, polTorTags, hguard, hgeo, addField,
        findD, FieldKey.mk.injEq]
  · intro Br Bz rad zed i j k
    show Br.val i j k *
        (rad.val i j k /
          Real.sqrt (rad.val i j k * rad.val i j k +
            zed.val i j k * zed.val i j k)) +
      Bz.val i j k *
        (zed.val i j k /
          Real.sqrt (rad.val i j k * rad.val i j k +
            zed.val i j k * zed.val i j k)) = _
    rw [show rad.val i j k * rad.val i j k + zed.val i j k * zed.val i j k =
        rad.val i j k ^ 2 + zed.val i j k ^ 2 from by ring,
      ← mul_div_assoc, ← mul_div_assoc, div_add_div_same]

/-- C6 witness: the degenerate-geometry specification applied at a concrete
cylindrical dataset and a concrete toroidal component. -/
theorem poloidal_toroidal_degenerate_geometries_witness :
    (findD (setup_magnetic_field_fields dsCyl rCyl "gas")
        ⟨"gas", "magnetic_field_poloidal"⟩).map Descriptor.func =
      some (some ComputeTag.poloidalCylindrical) ∧
    _magnetic_field_toroidal_cyl cB3 = cB3 := by
  have hguard : findD rCyl
      ⟨"gas", "magnetic_field_" ++ axn dsCyl.axis_order 0⟩ = some bDescMKS := by
    simp [rCyl, dsCyl, axn, findD]
  have h := poloidal_toroidal_degenerate_geometries dsCyl rCyl "gas" bDescMKS
    hguard
  exact ⟨(h.1 rfl).1, h.2.2.2.1 cB3⟩

/-- C7: when the primitive field for the first coordinate axis is absent
from the registry the magnetic-field setup routine installs nothing and
returns the registry unchanged, and the alias-installation routine likewise
returns immediately when the first dataset-native field is absent. -/
theorem missing_first_axis_guard_noop
    (ds : Dataset) (r : Registry) (ftype ds_ftype ftype2 : String)
    (ds_fields : List String) (fd0 : String)
    (h1 : findD r ⟨ftype, "magnetic_field_" ++ axn ds.axis_order 0⟩ = none)
    (hhd : ds_fields.head? = some fd0)
    (h2 : findD r ⟨ds_ftype, fd0⟩ = none) :
    setup_magnetic_field_fields ds r ftype = r ∧
    setup_magnetic_field_aliases ds r ds_ftype ds_fields ftype2 = r := by
  constructor
  · simp [setup_magnetic_field_fields, h1]
  · cases ds_fields with
    | nil => simp at hhd
    | cons a t =>
      have ha : a = fd0 := by simpa using hhd
      subst ha
      simp [setup_magnetic_field_aliases, h2]

/-- C7 witness: both guards applied at the empty registry. -/
theorem missing_first_axis_guard_noop_witness :
    setup_magnetic_field_fields dsFix rEmpty "gas" = rEmpty ∧
    setup_magnetic_field_aliases dsFix rEmpty "chombo" ["bx1"] "gas" =
      rEmpty := by
  exact missing_first_axis_guard_noop dsFix rEmpty "gas" "chombo" "gas"
    ["bx1"] "bx1" rfl rfl rfl

/-- C9: the magnetic_pressure computation function returns the
magnetic_energy value unchanged, and both fields are installed with the same
target unit — the unit system's pressure unit. -/
theorem magnetic_pressure_aliases_energy
    (ds : Dataset) (r : Registry) (ftype : String) (d0 : Descriptor)
    (hguard : findD r ⟨ftype, "magnetic_field_" ++ axn ds.axis_order 0⟩ =
      some d0) :
    ∃ dp de : Descriptor,
      findD (setup_magnetic_field_fields ds r ftype)
        ⟨ftype, "magnetic_pressure"⟩ = some dp ∧
      findD (setup_magnetic_field_fields ds r ftype)
        ⟨ftype, "magnetic_energy"⟩ = some de ∧
      dp.units = ds.unit_system.unitFor "pressure" ∧
      de.units = ds.unit_system.unitFor "pressure" ∧
      dp.units = de.units ∧
      dp.func = some .pressureOfB ∧
      (∀ e : YTArr, _magnetic_pressure e = e) := by
  refine ⟨⟨"cell", some .pressureOfB, ds.unit_system.unitFor "pressure", []⟩,
    ⟨"cell", some .energy, ds.unit_system.unitFor "pressure", []⟩,
    ?_, ?_, rfl, rfl, rfl, rfl, fun _ => rfl⟩ <;>
    simp [setup_magnetic_field_fields, hguard, addField, findD,
      FieldKey.mk.injEq]

/-- C9 witness: the pressure/energy installation at a concrete Cartesian
dataset and registry. -/
theorem magnetic_pressure_aliases_energy_witness :
    (findD (setup_magnetic_field_fields dsFix rFix "gas")
        ⟨"gas", "magnetic_pressure"⟩).map Descriptor.units =
      some (usFix.unitFor "pressure") ∧
    (findD (setup_magnetic_field_fields dsFix rFix "gas")
        ⟨"gas", "magnetic_energy"⟩).map Descriptor.units =
      some (usFix.unitFor "pressure") ∧
    _magnetic_pressure cB1 = cB1 := by
  have hguard : findD rFix
      ⟨"gas", "magnetic_field_" ++ axn dsFix.axis_order 0⟩ = some bDescMKS := by
    simp [rFix, dsFix, axn, findD]
  obtain ⟨dp, de, hp, he, hpu, heu, _, _, hfun⟩ :=
    magnetic_pressure_aliases_energy dsFix rFix "gas" bDescMKS hguard
  refine ⟨?_, ?_, hfun cB1⟩
  · rw [hp, Option.map_some', hpu]
    rfl
  · rw [he, Option.map_some', heu]
    rfl

/-- C4: for a geometry that is none of cartesian, cylindrical, spherical,
the poloidal and toroidal fields are still installed (membership reports
them present) with computation function `None`; evaluating either in a
context binding "normal" fails with `UndefinedForGeometry`, an error
distinct from `NotFound`. -/
theorem unknown_geometry_decomposition_undefined
    (ds : Dataset) (r : Registry) (ftype : String) (d0 : Descriptor)
    (ctx : Context)
    (hguard : findD r ⟨ftype, "magnetic_field_" ++ axn ds.axis_order 0⟩ =
      some d0)
    (hg1 : ds.geometry ≠ "cartesian") (hg2 : ds.geometry ≠ "cylindrical")
    (hg3 : ds.geometry ≠ "spherical")
    (hn : ctx.params.contains "normal" = true) :
    (findD (setup_magnetic_field_fields ds r ftype)
      ⟨ftype, "magnetic_field_poloidal"⟩).isSome = true ∧
    (findD (setup_magnetic_field_fields ds r ftype)
      ⟨ftype, "magnetic_field_toroidal"⟩).isSome = true ∧
    evaluateCheck (setup_magnetic_field_fields ds r ftype)
      ⟨ftype, "magnetic_field_poloidal"⟩ ctx = .error .undefinedForGeometry ∧
    evaluateCheck (setup_magnetic_field_fields ds r ftype)
      ⟨ftype, "magnetic_field_toroidal"⟩ ctx = .error .undefinedForGeometry ∧
    EvalError.undefinedForGeometry ≠ EvalError.notFound := by
  have hpol : findD (setup_magnetic_field_fields ds r ftype)
      ⟨ftype, "magnetic_field_poloidal"⟩ =
      some ⟨"cell", none, d0.units, [.validateParameter "normal"]⟩ := by
    simp [setup_magnetic_field_fields, polTorTags, hguard, hg1, hg2, hg3,
      addField, findD, FieldKey.mk.injEq]
  have htor : findD (setup_magnetic_field_fields ds r ftype)
      ⟨ftype, "magnetic_field_toroidal"⟩ =
      some ⟨"cell", none, d0.units, [.validateParameter "normal"]⟩ := by
    simp [setup_magnetic_field_fields, polTorTags, hguard, hg1, hg2, hg3,
      addField, findD, FieldKey.mk.injEq]
  have hn2 : "normal" ∈ ctx.params := by simpa using hn
  refine ⟨by rw [hpol]; rfl, by rw [htor]; rfl, ?_, ?_, by simp⟩ <;>
    · simp only [evaluateCheck, hpol, htor]
      simp [List.find?, Validator.satisfied, hn2]

/-- C4 witness: the unknown-geometry behaviour at a concrete "polar" dataset
with "normal" bound. -/
theorem unknown_geometry_decomposition_undefined_witness :
    (findD (setup_magnetic_field_fields dsWeird rFix "gas")
      ⟨"gas", "magnetic_field_poloidal"⟩).isSome = true ∧
    evaluateCheck (setup_magnetic_field_fields dsWeird rFix "gas")
      ⟨"gas", "magnetic_field_poloidal"⟩ ctxNormal =
      .error .undefinedForGeometry := by
  have hguard : findD rFix
      ⟨"gas", "magnetic_field_" ++ axn dsWeird.axis_order 0⟩ =
      some bDescMKS := by
    simp [rFix, dsWeird, axn, findD]
  have h := unknown_geometry_decomposition_undefined dsWeird rFix "gas"
    bDescMKS ctxNormal hguard (by simp [dsWeird]) (by simp [dsWeird])
    (by simp [dsWeird]) (by simp [ctxNormal])
  exact ⟨h.1, h.2.2.1⟩

/-- C8: for every geometry, the poloidal and toroidal fields are installed
with a validator requiring the "normal" parameter, and evaluating either in
a context without "normal" bound fails with `PreconditionFailed` naming
"normal". -/
theorem normal_parameter_validator_uniform
    (ds : Dataset) (r : Registry) (ftype : String) (d0 : Descriptor)
    (ctx : Context)
    (hguard : findD r ⟨ftype, "magnetic_field_" ++ axn ds.axis_order 0⟩ =
      some d0)
    (hn : ctx.params.contains "normal" = false) :
    ∃ dp dt : Descriptor,
      findD (setup_magnetic_field_fields ds r ftype)
        ⟨ftype, "magnetic_field_poloidal"⟩ = some dp ∧
      findD (setup_magnetic_field_fields ds r ftype)
        ⟨ftype, "magnetic_field_toroidal"⟩ = some dt ∧
      Validator.validateParameter "normal" ∈ dp.validators ∧
      Validator.validateParameter "normal" ∈ dt.validators ∧
      evaluateCheck (setup_magnetic_field_fields ds r ftype)
        ⟨ftype, "magnetic_field_poloidal"⟩ ctx =
        .error (.preconditionFailed "normal") ∧
      evaluateCheck (setup_magnetic_field_fields ds r ftype)
        ⟨ftype, "magnetic_field_toroidal"⟩ ctx =
        .error (.preconditionFailed "normal") := by
  have hpol : findD (setup_magnetic_field_fields ds r ftype)
      ⟨ftype, "magnetic_field_poloidal"⟩ =
      some ⟨"cell", (polTorTags ds.geometry).1, d0.units,
        [.validateParameter "normal"]⟩ := by
    simp [setup_magnetic_field_fields, hguard, addField, findD,
      FieldKey.mk.injEq]
  have htor : findD (setup_magnetic_field_fields ds r ftype)
      ⟨ftype, "magnetic_field_toroidal"⟩ =
      some ⟨"cell", (polTorTags ds.geometry).2, d0.units,
        [.validateParameter "normal"]⟩ := by
    simp [setup_magnetic_field_fields, hguard, addField, findD,
      FieldKey.mk.injEq]
  have hn2 : "normal" ∉ ctx.params := by
    intro hmem
    simp [hmem] at hn
  refine ⟨_, _, hpol, htor, by simp, by simp, ?_, ?_⟩ <;>
    · simp only [evaluateCheck, hpol, htor]
      simp [List.find?, Validator.satisfied, hn2, Validator.name]

/-- C8 witness: the uniform "normal" precondition at a concrete Cartesian
dataset and a context with no parameters bound. -/
theorem normal_parameter_validator_uniform_witness :
    evaluateCheck (setup_magnetic_field_fields dsFix rFix "gas")
      ⟨"gas", "magnetic_field_poloidal"⟩ ctxBare =
      .error (.preconditionFailed "normal") ∧
    evaluateCheck (setup_magnetic_field_fields dsFix rFix "gas")
      ⟨"gas", "magnetic_field_toroidal"⟩ ctxBare =
      .error (.preconditionFailed "normal") := by
  have hguard : findD rFix
      ⟨"gas", "magnetic_field_" ++ axn dsFix.axis_order 0⟩ = some bDescMKS := by
    simp [rFix, dsFix, axn, findD]
  obtain ⟨dp, dt, _, _, _, _, h5, h6⟩ :=
    normal_parameter_validator_uniform dsFix rFix "gas" bDescMKS ctxBare
      hguard (by simp [ctxBare])
  exact ⟨h5, h6⟩

/-- C3: every per-axis alias installed by the alias routine carries one
conversion, fixed at installation time by testing whether the SI current
dimension is among the active unit system's base units: a plain rescale to
the chosen target unit when source and target dimensionality agree,
otherwise the equivalence transform named "SI" (SI-like base units) or
"CGS" (otherwise). -/
theorem alias_conversion_fixed_at_install
    (ds : Dataset) (r : Registry) (ds_ftype ftype : String)
    (fd0 : String) (rest : List String) (dsc0 : Descriptor)
    (ax : String) (fd : FieldKey)
    (h0 : findD r ⟨ds_ftype, fd0⟩ = some dsc0)
    (hnd : ds.axis_order.Nodup)
    (hmem : (ax, fd) ∈ ds.axis_order.zip
      ((fd0 :: rest).map (fun s => FieldKey.mk ds_ftype s))) :
    ∃ target : UnitT, ∃ eqName : String, ∃ conv : Conversion,
      (current_mks ∈ ds.unit_system.base_units →
        target = ds.unit_system.unitFor "magnetic_field_mks" ∧
          eqName = "SI") ∧
      (current_mks ∉ ds.unit_system.base_units →
        target = ds.unit_system.unitFor "magnetic_field_cgs" ∧
          eqName = "CGS") ∧
      conv = (if dsc0.units.dims = target.dims then Conversion.rescale target
              else Conversion.equivalence target eqName) ∧
      findD (setup_magnetic_field_aliases ds r ds_ftype (fd0 :: rest) ftype)
        ⟨ftype, "magnetic_field_" ++ ax⟩ =
        some ⟨"cell", some (.aliasField fd conv),
              ds.unit_system.unitForDims target.dims, []⟩ := by
  have hnodup : ((ds.axis_order.zip
      ((fd0 :: rest).map (fun s => FieldKey.mk ds_ftype s))).map
        Prod.fst).Nodup :=
    List.Nodup.sublist (map_fst_zip_sublist _ _) hnd
  by_cases hb : current_mks ∈ ds.unit_system.base_units
  · refine ⟨ds.unit_system.unitFor "magnetic_field_mks", "SI",
      if dsc0.units.dims = (ds.unit_system.unitFor "magnetic_field_mks").dims
        then Conversion.rescale (ds.unit_system.unitFor "magnetic_field_mks")
        else Conversion.equivalence
          (ds.unit_system.unitFor "magnetic_field_mks") "SI",
      fun _ => ⟨rfl, rfl⟩, fun hnb => absurd hb hnb, rfl, ?_⟩
    simp only [setup_magnetic_field_aliases, List.map_cons, h0]
    simp only [hb, if_true, eq_self_iff_true]
    exact findD_foldl_mem _ r
      (fun p => ⟨"cell", some (.aliasField p.2
        (if dsc0.units.dims =
            (ds.unit_system.unitFor "magnetic_field_mks").dims
          then Conversion.rescale (ds.unit_system.unitFor "magnetic_field_mks")
          else Conversion.equivalence
            (ds.unit_system.unitFor "magnetic_field_mks") "SI")),
        ds.unit_system.unitForDims
          (ds.unit_system.unitFor "magnetic_field_mks").dims, []⟩)
      ftype ax fd hnodup hmem
  · refine ⟨ds.unit_system.unitFor "magnetic_field_cgs", "CGS",
      if dsc0.units.dims = (ds.unit_system.unitFor "magnetic_field_cgs").dims
        then Conversion.rescale (ds.unit_system.unitFor "magnetic_field_cgs")
        else Conversion.equivalence
          (ds.unit_system.unitFor "magnetic_field_cgs") "CGS",
      fun hb2 => absurd hb2 hb, fun _ => ⟨rfl, rfl⟩, rfl, ?_⟩
    simp only [setup_magnetic_field_aliases, List.map_cons, h0]
    simp only [hb, if_false, eq_self_iff_true]
    exact findD_foldl_mem _ r
      (fun p => ⟨"cell", some (.aliasField p.2
        (if dsc0.units.dims =
            (ds.unit_system.unitFor "magnetic_field_cgs").dims
          then Conversion.rescale (ds.unit_system.unitFor "magnetic_field_cgs")
          else Conversion.equivalence
            (ds.unit_system.unitFor "magnetic_field_cgs") "CGS")),
        ds.unit_system.unitForDims
          (ds.unit_system.unitFor "magnetic_field_cgs").dims, []⟩)
      ftype ax fd hnodup hmem

/-- C3 witness: the alias installation at an SI-like unit system where the
native field already carries the SI magnetic-field dimension, so the first
axis alias wraps the native field with a plain rescale. -/
theorem alias_conversion_fixed_at_install_witness :
    findD (setup_magnetic_field_aliases dsFix rChombo "chombo"
        ["bx1", "bx2", "bx3"] "gas") ⟨"gas", "magnetic_field_x"⟩ =
      some ⟨"cell", some (.aliasField ⟨"chombo", "bx1"⟩
          (.rescale (usFix.unitFor "magnetic_field_mks"))),
        usFix.unitForDims (usFix.unitFor "magnetic_field_mks").dims, []⟩ := by
  have h0 : findD rChombo ⟨"chombo", "bx1"⟩ = some bDescMKS := by
    simp [rChombo, findD]
  obtain ⟨target, eqName, conv, hsi, _, hconv, hfind⟩ :=
    alias_conversion_fixed_at_install dsFix rChombo "chombo" "gas" "bx1"
      ["bx2", "bx3"] bDescMKS "x" ⟨"chombo", "bx1"⟩ h0
      (by simp [dsFix]) (by simp [dsFix])
  obtain ⟨ht, he⟩ := hsi (by simp [dsFix, usFix])
  subst ht he
  have hdims : bDescMKS.units.dims =
      (dsFix.unit_system.unitFor "magnetic_field_mks").dims := rfl
  rw [if_pos hdims] at hconv
  subst hconv
  exact hfind

/-- C2: with the default stencil each current-density component differences
the two other-axis magnetic-field components across the stencil offsets,
each partial divided by the divisor `2` times its paired grid spacing, into
the stencil-trimmed interior of a zero-initialized array; the whole array is
divided by the Ampère's-law factor selected by the dimensionality of the
just-computed raw value (`4*pi/c` at the Gaussian dimension, `mu_0` at the
SI one, the map's only two entries); border cells are exactly zero. -/
theorem current_density_default_stencil_spec
    (Bx By Bz : YTArr) (dx dy dz : Quantity)
    (Jx Jy Jz : YTArr) (jfx jfy jfz : Quantity)
    (hjx : j_factors (Bz.dims.div dy.dims) = some jfx)
    (hjy : j_factors (Bx.dims.div dz.dims) = some jfy)
    (hjz : j_factors (By.dims.div dx.dims) = some jfz)
    (hx : _current_density_x Bx By Bz dx dy dz = some Jx)
    (hy : _current_density_y Bx By Bz dx dy dz = some Jy)
    (hz : _current_density_z Bx By Bz dx dy dz = some Jz) :
    (∀ i j k, i + 2 < Bz.nx → j + 2 < Bz.ny → k + 2 < Bz.nz →
       Jx.val (i+1) (j+1) (k+1) =
         ((Bz.val (i+1) (j+2) (k+1) - Bz.val (i+1) j (k+1)) / (2 * dy.num) -
          (By.val (i+1) (j+1) (k+2) - By.val (i+1) (j+1) k) / (2 * dz.num)) /
           jfx.num) ∧
    (∀ i j k, ¬(1 ≤ i ∧ i + 1 < Bz.nx ∧ 1 ≤ j ∧ j + 1 < Bz.ny ∧
        1 ≤ k ∧ k + 1 < Bz.nz) → Jx.val i j k = 0) ∧
    (∀ i j k, i + 2 < Bz.nx → j + 2 < Bz.ny → k + 2 < Bz.nz →
       Jy.val (i+1) (j+1) (k+1) =
         ((Bx.val (i+1) (j+1) (k+2) - Bx.val (i+1) (j+1) k) / (2 * dz.num) -
          (Bz.val (i+2) (j+1) (k+1) - Bz.val i (j+1) (k+1)) / (2 * dx.num)) /
           jfy.num) ∧
    (∀ i j k, ¬(1 ≤ i ∧ i + 1 < Bz.nx ∧ 1 ≤ j ∧ j + 1 < Bz.ny ∧
        1 ≤ k ∧ k + 1 < Bz.nz) → Jy.val i j k = 0) ∧
    (∀ i j k, i + 2 < Bz.nx → j + 2 < Bz.ny → k + 2 < Bz.nz →
       Jz.val (i+1) (j+1) (k+1) =
         ((By.val (i+2) (j+1) (k+1) - By.val i (j+1) (k+1)) / (2 * dx.num) -
          (Bx.val (i+1) (j+2) (k+1) - Bx.val (i+1) j (k+1)) / (2 * dy.num)) /
           jfz.num) ∧
    (∀ i j k, ¬(1 ≤ i ∧ i + 1 < Bz.nx ∧ 1 ≤ j ∧ j + 1 < Bz.ny ∧
        1 ≤ k ∧ k + 1 < Bz.nz) → Jz.val i j k = 0) ∧
    j_factors (magnetic_field_cgs.div dim_length) =
      some (Quantity.rdivQ (4 * Real.pi) c) ∧
    j_factors (magnetic_field_mks.div dim_length) = some mu_0 ∧
    (∀ d : Dims, d ≠ magnetic_field_cgs.div dim_length →
       d ≠ magnetic_field_mks.div dim_length → j_factors d = none) := by
  simp only [_current_density_x] at hx
  simp only [_current_density_y] at hy
  simp only [_current_density_z] at hz
  obtain ⟨jx2, hjx2, hJx⟩ := Option.map_eq_some'.mp hx
  obtain ⟨jy2, hjy2, hJy⟩ := Option.map_eq_some'.mp hy
  obtain ⟨jz2, hjz2, hJz⟩ := Option.map_eq_some'.mp hz
  have hjx3 : j_factors (Bz.dims.div dy.dims) = some jx2 := hjx2
  have hjy3 : j_factors (Bx.dims.div dz.dims) = some jy2 := hjy2
  have hjz3 : j_factors (By.dims.div dx.dims) = some jz2 := hjz2
  rw [hjx3] at hjx
  rw [hjy3] at hjy
  rw [hjz3] at hjz
  have hex : jx2 = jfx := Option.some.inj hjx
  have hey : jy2 = jfy := Option.some.inj hjy
  have hez : jz2 = jfz := Option.some.inj hjz
  subst hex hey hez
  subst hJx hJy hJz
  refine ⟨?_, ?_, ?_, ?_, ?_, ?_, ?_, ?_, ?_⟩
  · intro i j k ha hb hc
    simp only [YTArr.divQ, setCenter, zerosLike, YTArr.sub, YTArr.slc,
      Quantity.smulQ]
    rw [if_pos (show 1 ≤ i + 1 ∧ i + 1 + 1 < Bz.nx ∧ 1 ≤ j + 1 ∧
      j + 1 + 1 < Bz.ny ∧ 1 ≤ k + 1 ∧ k + 1 + 1 < Bz.nz from by omega)]
    simp only [Nat.add_sub_cancel, Nat.add_zero]
  · intro i j k hcond
    simp only [YTArr.divQ, setCenter, zerosLike, YTArr.sub, YTArr.slc,
      Quantity.smulQ]
    rw [if_neg hcond]
    exact zero_div _
  · intro i j k ha hb hc
    simp only [YTArr.divQ, setCenter, zerosLike, YTArr.sub, YTArr.slc,
      Quantity.smulQ]
    rw [if_pos (show 1 ≤ i + 1 ∧ i + 1 + 1 < Bz.nx ∧ 1 ≤ j + 1 ∧
      j + 1 + 1 < Bz.ny ∧ 1 ≤ k + 1 ∧ k + 1 + 1 < Bz.nz from by omega)]
    simp only [Nat.add_sub_cancel, Nat.add_zero]
  · intro i j k hcond
    simp only [YTArr.divQ, setCenter, zerosLike, YTArr.sub, YTArr.slc,
      Quantity.smulQ]
    rw [if_neg hcond]
    exact zero_div _
  · intro i j k ha hb hc
    simp only [YTArr.divQ, setCenter, zerosLike, YTArr.sub, YTArr.slc,
      Quantity.smulQ]
    rw [if_pos (show 1 ≤ i + 1 ∧ i + 1 + 1 < Bz.nx ∧ 1 ≤ j + 1 ∧
      j + 1 + 1 < Bz.ny ∧ 1 ≤ k + 1 ∧ k + 1 + 1 < Bz.nz from by omega)]
    simp only [Nat.add_sub_cancel, Nat.add_zero]
  · intro i j k hcond
    simp only [YTArr.divQ, setCenter, zerosLike, YTArr.sub, YTArr.slc,
      Quantity.smulQ]
    rw [if_neg hcond]
    exact zero_div _
  · unfold j_factors
    rw [if_pos rfl]
  · unfold j_factors
    rw [if_neg (show ¬(magnetic_field_mks.div dim_length =
        magnetic_field_cgs.div dim_length) from by
      simp [magnetic_field_mks, magnetic_field_cgs, dim_length, Dims.div,
        Dims.mk.injEq]), if_pos rfl]
  · intro d h1 h2
    unfold j_factors
    rw [if_neg h1, if_neg h2]

/-- C2 witness: the default-stencil specification at concrete `3×3×3`
Gaussian-unit components — the single interior cell carries the stencil
value, a corner cell is exactly zero. -/
theorem current_density_default_stencil_spec_witness :
    _current_density_x cBx cBy cBz cdx cdy cdz = some cJx ∧
    cJx.val 0 0 0 = 0 ∧
    cJx.val 1 1 1 =
      ((cBz.val 1 2 1 - cBz.val 1 0 1) / (2 * cdy.num) -
       (cBy.val 1 1 2 - cBy.val 1 1 0) / (2 * cdz.num)) / jFactorCGS.num := by
  have hjx : j_factors (cBz.dims.div cdy.dims) = some jFactorCGS := by
    unfold j_factors
    rw [if_pos (show cBz.dims.div cdy.dims =
      magnetic_field_cgs.div dim_length from rfl)]
    rfl
  have hjy : j_factors (cBx.dims.div cdz.dims) = some jFactorCGS := by
    unfold j_factors
    rw [if_pos (show cBx.dims.div cdz.dims =
      magnetic_field_cgs.div dim_length from rfl)]
    rfl
  have hjz : j_factors (cBy.dims.div cdx.dims) = some jFactorCGS := by
    unfold j_factors
    rw [if_pos (show cBy.dims.div cdx.dims =
      magnetic_field_cgs.div dim_length from rfl)]
    rfl
  have hx : _current_density_x cBx cBy cBz cdx cdy cdz = some cJx := by
    show (j_factors (setCenter (zerosLike cBz cFx.dims) cFx).dims).map
      (fun jf => (setCenter (zerosLike cBz cFx.dims) cFx).divQ jf) = some cJx
    have hk : j_factors (setCenter (zerosLike cBz cFx.dims) cFx).dims =
        some jFactorCGS := hjx
    rw [hk]
    rfl
  have hy : _current_density_y cBx cBy cBz cdx cdy cdz = some cJy := by
    show (j_factors (setCenter (zerosLike cBz cFy.dims) cFy).dims).map
      (fun jf => (setCenter (zerosLike cBz cFy.dims) cFy).divQ jf) = some cJy
    have hk : j_factors (setCenter (zerosLike cBz cFy.dims) cFy).dims =
        some jFactorCGS := hjy
    rw [hk]
    rfl
  have hz : _current_density_z cBx cBy cBz cdx cdy cdz = some cJz := by
    show (j_factors (setCenter (zerosLike cBz cFz.dims) cFz).dims).map
      (fun jf => (setCenter (zerosLike cBz cFz.dims) cFz).divQ jf) = some cJz
    have hk : j_factors (setCenter (zerosLike cBz cFz.dims) cFz).dims =
        some jFactorCGS := hjz
    rw [hk]
    rfl
  have main := current_density_default_stencil_spec cBx cBy cBz cdx cdy cdz
    cJx cJy cJz jFactorCGS jFactorCGS jFactorCGS hjx hjy hjz hx hy hz
  refine ⟨hx, main.2.1 0 0 0 (by simp [cBz]), ?_⟩
  exact main.1 0 0 0 (by simp [cBz]) (by simp [cBz]) (by simp [cBz])

/-- C10: every current-density component allocates its zero-initialized
output with the shape of the z magnetic-field component — the x and y
components included — so each component's result shape and guaranteed-zero
border are fixed by the z component's array for every input. -/
theorem current_density_shape_from_z_component
    (Bx By Bz : YTArr) (dx dy dz : Quantity) (Jx Jy Jz : YTArr)
    (hx : _current_density_x Bx By Bz dx dy dz = some Jx)
    (hy : _current_density_y Bx By Bz dx dy dz = some Jy)
    (hz : _current_density_z Bx By Bz dx dy dz = some Jz) :
    (Jx.nx = Bz.nx ∧ Jx.ny = Bz.ny ∧ Jx.nz = Bz.nz) ∧
    (Jy.nx = Bz.nx ∧ Jy.ny = Bz.ny ∧ Jy.nz = Bz.nz) ∧
    (Jz.nx = Bz.nx ∧ Jz.ny = Bz.ny ∧ Jz.nz = Bz.nz) ∧
    (∀ i j k, ¬(1 ≤ i ∧ i + 1 < Bz.nx ∧ 1 ≤ j ∧ j + 1 < Bz.ny ∧
        1 ≤ k ∧ k + 1 < Bz.nz) →
      Jx.val i j k = 0 ∧ Jy.val i j k = 0 ∧ Jz.val i j k = 0) := by
  simp only [_current_density_x] at hx
  simp only [_current_density_y] at hy
  simp only [_current_density_z] at hz
  obtain ⟨jx2, _, hJx⟩ := Option.map_eq_some'.mp hx
  obtain ⟨jy2, _, hJy⟩ := Option.map_eq_some'.mp hy
  obtain ⟨jz2, _, hJz⟩ := Option.map_eq_some'.mp hz
  subst hJx hJy hJz
  refine ⟨⟨rfl, rfl, rfl⟩, ⟨rfl, rfl, rfl⟩, ⟨rfl, rfl, rfl⟩, ?_⟩
  intro i j k hcond
  refine ⟨?_, ?_, ?_⟩ <;>
    · simp only [YTArr.divQ, setCenter, zerosLike, YTArr.sub, YTArr.slc,
        Quantity.smulQ]
      rw [if_neg hcond]
      exact zero_div _

/-- C10 witness: the z-shape invariant at the concrete `3×3×3` components,
a corner cell of every component being zero. -/
theorem current_density_shape_from_z_component_witness :
    _current_density_z cBx cBy cBz cdx cdy cdz = some cJz ∧
    cJz.nx = cBz.nx ∧ cJz.val 2 2 2 = 0 := by
  have hx : _current_density_x cBx cBy cBz cdx cdy cdz = some cJx := by
    show (j_factors (setCenter (zerosLike cBz cFx.dims) cFx).dims).map
      (fun jf => (setCenter (zerosLike cBz cFx.dims) cFx).divQ jf) = some cJx
    have hk : j_factors (setCenter (zerosLike cBz cFx.dims) cFx).dims =
        some jFactorCGS := by
      unfold j_factors
      rw [if_pos (show (setCenter (zerosLike cBz cFx.dims) cFx).dims =
        magnetic_field_cgs.div dim_length from rfl)]
      rfl
    rw [hk]
    rfl
  have hy : _current_density_y cBx cBy cBz cdx cdy cdz = some cJy := by
    show (j_factors (setCenter (zerosLike cBz cFy.dims) cFy).dims).map
      (fun jf => (setCenter (zerosLike cBz cFy.dims) cFy).divQ jf) = some cJy
    have hk : j_factors (setCenter (zerosLike cBz cFy.dims) cFy).dims =
        some jFactorCGS := by
      unfold j_factors
      rw [if_pos (show (setCenter (zerosLike cBz cFy.dims) cFy).dims =
        magnetic_field_cgs.div dim_length from rfl)]
      rfl
    rw [hk]
    rfl
  have hz : _current_density_z cBx cBy cBz cdx cdy cdz = some cJz := by
    show (j_factors (setCenter (zerosLike cBz cFz.dims) cFz).dims).map
      (fun jf => (setCenter (zerosLike cBz cFz.dims) cFz).divQ jf) = some cJz
    have hk : j_factors (setCenter (zerosLike cBz cFz.dims) cFz).dims =
        some jFactorCGS := by
      unfold j_factors
      rw [if_pos (show (setCenter (zerosLike cBz cFz.dims) cFz).dims =
        magnetic_field_cgs.div dim_length from rfl)]
      rfl
    rw [hk]
    rfl
  have main := current_density_shape_from_z_component cBx cBy cBz cdx cdy cdz
    cJx cJy cJz hx hy hz
  exact ⟨hz, main.2.2.1.1, (main.2.2.2 2 2 2 (by simp [cBz])).2.2⟩
